import Mathlib

/-!
Verification of the chess orchestration core of chess-mind-unleashed.

The repository drives a chess game between human and LLM seats.  Chess rule
checking is delegated to the external chess.js library (the Rules Oracle of
the design document); the code under verification is the move-text
resolution, fallback selection, and session state handling found in
src/components/AIMoveHandler.tsx, src/components/ChessGame.tsx,
src/hooks/useChessGame.ts, src/hooks/useMoveHandler.ts and
src/lib/langchainChessAgent.ts.

Strings are modelled with Lean String; the JavaScript string operations used
by the source (startsWith, includes, toLowerCase, trim, one-shot regex
replace) are given explicit executable models below.
-/

namespace ChessMind

/-- Model of JavaScript a.startsWith(b): startsL pat s is true when pat is an
initial segment of s (startsL is applied as startsL pat.toList s.toList). -/
def startsL : List Char → List Char → Bool
  | [], _ => true
  | _ :: _, [] => false
  | p :: ps, c :: cs => p == c && startsL ps cs

/-- Model of JavaScript s.includes(pat) on char lists. -/
def containsL : List Char → List Char → Bool
  | cs, pat =>
    startsL pat cs ||
      (match cs with
       | [] => false
       | _ :: rest => containsL rest pat)

/-- JavaScript string startsWith: strStarts pre s means s starts with pre. -/
def strStarts (pre s : String) : Bool := startsL pre.toList s.toList

/-- JavaScript string includes: strContains s pat means pat occurs in s. -/
def strContains (s pat : String) : Bool := containsL s.toList pat.toList

/-- JavaScript s.toLowerCase() on the ASCII move strings of this code base:
every character is lowered individually. -/
def lowerStr (s : String) : String := String.mk (s.toList.map Char.toLower)

/-- JavaScript s.trim(): leading and trailing whitespace removed. -/
def trimStr (s : String) : String :=
  String.mk
    (((s.toList.dropWhile Char.isWhitespace).reverse.dropWhile
        Char.isWhitespace).reverse)

/-- Model of JavaScript s.replace(regex, empty) with a non-global regex over a
character class: only the first character satisfying p is removed. -/
def removeFirstAux (p : Char → Bool) : List Char → List Char
  | [] => []
  | c :: cs => if p c then cs else c :: removeFirstAux p cs

/-- Characters stripped by the resolver regex [+#!?] in AIMoveHandler.tsx. -/
def isAnnotChar (c : Char) : Bool := c == '+' || c == '#' || c == '!' || c == '?'

/-- aiMove.replace(regex [+#!?], empty).trim().toLowerCase() from the
matchingMove predicate in AIMoveHandler.tsx (first occurrence only, because
the source regex has no global flag). -/
def cleanTok (s : String) : String :=
  lowerStr (trimStr (String.mk (removeFirstAux isAnnotChar s.toList)))

/-- san.replace(regex [+#], empty) from the matchingMove predicate in
ChessGame.tsx (first occurrence only, no trim, no case folding). -/
def stripPH (s : String) : String :=
  String.mk (removeFirstAux (fun c => c == '+' || c == '#') s.toList)

/-- JavaScript s.charAt(0).toUpperCase(), with the empty string for empty s. -/
def charAt0Upper (s : String) : String :=
  match s.toList with
  | [] => ""
  | c :: _ => String.mk [c.toUpper]

/-- JavaScript s.substring(2). -/
def strDrop2 (s : String) : String := String.mk (s.toList.drop 2)


/-- A verbose legal move as returned by chess.js moves with the verbose flag:
standard notation, long notation, origin square, destination square.  The
source fields from and to are renamed fromSq and toSq (from is a Lean
keyword). -/
structure LegalMove where
  san : String
  lan : String
  fromSq : String
  toSq : String
  deriving DecidableEq, Repr

/-! ### Character classes used by the regular expressions of the source -/

def isFileChar (c : Char) : Bool := 'a' ≤ c && c ≤ 'h'
def isRankChar (c : Char) : Bool := '1' ≤ c && c ≤ '8'
def isPromoChar (c : Char) : Bool := c == 'q' || c == 'r' || c == 'n' || c == 'b'
def isPieceChar (c : Char) : Bool := c == 'K' || c == 'Q' || c == 'R' || c == 'B' || c == 'N'
def isTokenChar (c : Char) : Bool :=
  c.isAlpha || Char.isDigit c || c == '-' || c == '+' || c == '=' || c == '#'

/-- Regex [a-h][1-8][a-h][1-8][qrnb]? anchored at both ends (long algebraic
notation check of isValidMoveFormat in langchainChessAgent.ts). -/
def longAlgL : List Char → Bool
  | [a, b, c, d] => isFileChar a && isRankChar b && isFileChar c && isRankChar d
  | [a, b, c, d, e] =>
      isFileChar a && isRankChar b && isFileChar c && isRankChar d && isPromoChar e
  | _ => false

/-- Nondeterministic consumption of an optional single character: the
remainders after consuming zero or one character satisfying p (models a
regex question-mark quantifier). -/
def optCons (p : Char → Bool) (cs : List Char) : List (List Char) :=
  cs :: (match cs with
         | c :: r => if p c then [r] else []
         | [] => [])

/-- The mandatory tail [a-h][1-8][+#]? of the standard algebraic regex. -/
def sanTail : List Char → Bool
  | [f, r] => isFileChar f && isRankChar r
  | [f, r, s] => isFileChar f && isRankChar r && (s == '+' || s == '#')
  | _ => false

/-- Regex [KQRBN]?[a-h]?[1-8]?x?[a-h][1-8][+#]? anchored at both ends
(standard algebraic notation check of isValidMoveFormat). -/
def sanAlgL (cs : List Char) : Bool :=
  ((((optCons isPieceChar cs).flatMap (optCons isFileChar)).flatMap
      (optCons isRankChar)).flatMap (optCons (fun c => c == 'x'))).any sanTail

/-- Regex [a-h][1-8] anchored at both ends (bare pawn destination). -/
def pawnSqL : List Char → Bool
  | [f, r] => isFileChar f && isRankChar r
  | _ => false

/-- isValidMoveFormat from langchainChessAgent.ts: the move must match one of
the four anchored patterns (long algebraic, standard algebraic, castling,
bare pawn destination). -/
def isValidMoveFormat (s : String) : Bool :=
  longAlgL s.toList || sanAlgL s.toList || s == "O-O" || s == "O-O-O" ||
    pawnSqL s.toList

/-! ### getMove extraction pipeline (langchainChessAgent.ts, second class) -/

/-- The stalemate / no-legal-move / draw detection applied to the captured
FINAL DECISION text in getMove. -/
def mentionsOver (t : String) : Bool :=
  strContains (lowerStr t) "stalemate" ||
    strContains (lowerStr t) "no legal move" || strContains (lowerStr t) "draw"

/-- First maximal run of token characters in a string: models the JavaScript
match against the unanchored regex of one-or-more [a-zA-Z0-9 dash plus equal
hash] characters, which returns the leftmost maximal run. -/
def firstRunAux : List Char → Option (List Char)
  | [] => none
  | c :: cs =>
      if isTokenChar c then some (c :: cs.takeWhile isTokenChar)
      else firstRunAux cs

def firstRun (s : String) : Option String :=
  (firstRunAux s.toList).map String.mk

/-- The fallback line scan of getMove: the per-line per-pattern regex matches
are supplied as a candidate list (in scan order); the code returns the first
candidate passing isValidMoveFormat. -/
def scanCands (cands : List String) : Option String :=
  cands.find? isValidMoveFormat

/-- Move extraction logic of getMove after the streamed response is complete.
dec is the trimmed text captured after the FINAL DECISION label when that
label matched (the regex-level capture is supplied as a parameter); cands are
the fallback pattern matches from the last ten response lines, in scan order.
Mirrors langchainChessAgent.ts lines 311 to 355: a decision text mentioning
stalemate, no legal move or draw returns null; otherwise the first token run
of the decision text is returned when it passes isValidMoveFormat, and in all
remaining cases the fallback candidates are scanned for the first valid
one. -/
def getMoveExtract (dec : Option String) (cands : List String) : Option String :=
  match dec with
  | some moveText =>
      if mentionsOver moveText then none
      else
        match firstRun moveText with
        | some mv => if isValidMoveFormat mv then some mv else scanCands cands
        | none => scanCands cands
  | none => scanCands cands

/-- Whole-call model of getMove: legalSans is the legal-move list computed
from the FEN at entry.  The second component counts provider stream calls:
with an empty legal-move list getMove returns null before any network call
(langchainChessAgent.ts lines 279 to 291); otherwise exactly one streaming
call is made and the response is processed by getMoveExtract. -/
def getMoveRun (legalSans : List String) (dec : Option String)
    (cands : List String) : Option String × Nat :=
  if legalSans.isEmpty then (none, 0)
  else (getMoveExtract dec cands, 1)

/-! ### The matchingMove predicate of AIMoveHandler.tsx (lines 376 to 439) -/

/-- The per-move matching predicate used by matchingMove in AIMoveHandler.tsx.
For a single candidate token and a single legal move all matching strategies
are tried as one boolean disjunction: exact standard notation, exact long
notation, origin plus destination, annotation-stripped case-folded equality,
two-character pawn destination, either-direction startsWith, either-direction
containment, the bishop-capture heuristic, and exact castling. -/
def bigMatch (aiMove : String) (m : LegalMove) : Bool :=
  let cleanAi := cleanTok aiMove
  let cleanSan := cleanTok m.san
  m.san == aiMove ||
  m.lan == aiMove ||
  (m.fromSq ++ m.toSq) == aiMove ||
  cleanSan == cleanAi ||
  (cleanAi.length == 2 && m.toSq == cleanAi) ||
  (strStarts cleanAi m.san || strStarts cleanSan cleanAi) ||
  (strContains m.san cleanAi || strContains cleanAi cleanSan) ||
  (strStarts "bx" cleanAi && strStarts "bx" (lowerStr m.san) &&
     strContains (lowerStr m.san) (strDrop2 cleanAi)) ||
  ((aiMove == "O-O" && m.san == "O-O") || (aiMove == "O-O-O" && m.san == "O-O-O"))

/-- possibleMoves.find over the bigMatch predicate: the first legal move in
enumeration order for which any matching strategy succeeds. -/
def matchingMove (aiMove : String) (possible : List LegalMove) : Option LegalMove :=
  possible.find? (bigMatch aiMove)

/-! ### Fallback move selection (AIMoveHandler.tsx lines 501 to 532) -/

/-- Preference 1: plain pawn advance, regex [a-h][1-8] anchored. -/
def pref1 (mv : String) : Bool := pawnSqL mv.toList

/-- Preference 2: piece development move, regex [NBRQ][a-h][1-8] anchored. -/
def pref2 (mv : String) : Bool :=
  match mv.toList with
  | [p, f, r] => (p == 'N' || p == 'B' || p == 'R' || p == 'Q') &&
      isFileChar f && isRankChar r
  | _ => false

/-- Preference 3: castling, regex anchored only at the start on O-O. -/
def pref3 (mv : String) : Bool := strStarts "O-O" mv

/-- Preference 4: any capture (the move text includes an x). -/
def pref4 (mv : String) : Bool := strContains mv "x"

/-- Preference 5: any other move. -/
def pref5 (_ : String) : Bool := true

/-- The ordered movePreferences array of AIMoveHandler.tsx. -/
def movePrefs : List (String → Bool) := [pref1, pref2, pref3, pref4, pref5]

/-- The preference loop: for each predicate in order, availableMoves.find is
evaluated and the first hit of the first predicate with any hit is kept. -/
def firstFind : List (String → Bool) → List String → Option String
  | [], _ => none
  | pr :: prs, l =>
      match l.find? pr with
      | some mv => some mv
      | none => firstFind prs l

/-- Fallback move selection over the available standard notations: the
preference loop, followed by the random-index branch of the source (the
random draw is modelled by the index argument r, reduced modulo the list
length as the source floors a uniform draw times the length).  The random
branch is only reached when the loop selects nothing. -/
def selectFallbackMove (avail : List String) (r : Nat) : Option String :=
  match firstFind movePrefs avail with
  | some mv => some mv
  | none => avail.get? (r % avail.length)

/-! ### The Rules Oracle interface and the chess.js instance model

Chess rule checking is external to the repository (chess.js).  It is modelled
by an abstract engine: applyStr p s is chess.js move(s) from position p,
returning the new position and the applied legal move when s names a legal
move.  EngineWF records the documented chess.js behaviour the proofs rely on:
the exact standard notation of a legal move is accepted and applies exactly
that move; a string that matches no notation of any legal move is rejected;
an empty legal-move list means the game is over; applying a move flips the
side to move; and the initial position has white to move. -/

structure Engine (σ : Type) where
  init : σ
  moves : σ → List LegalMove
  applyStr : σ → String → Option (σ × LegalMove)
  turnW : σ → Bool
  gameOver : σ → Bool

structure EngineWF {σ : Type} (E : Engine σ) : Prop where
  san_applies : ∀ p m, m ∈ E.moves p → ∃ p', E.applyStr p m.san = some (p', m)
  rejects : ∀ p s,
    (∀ m ∈ E.moves p, s ≠ m.san ∧ s ≠ m.lan ∧ s ≠ m.fromSq ++ m.toSq) →
    E.applyStr p s = none
  over_empty : ∀ p, E.moves p = [] → E.gameOver p = true
  flips : ∀ p s p' m, E.applyStr p s = some (p', m) → E.turnW p' = !E.turnW p
  init_white : E.turnW E.init = true

/-- A chess.js Chess instance: the current position together with the stack
of prior positions recorded by the moves played on this instance (the data
undo needs).  Constructing an instance from a FEN string yields an empty
stack: the serialized position carries no move history. -/
structure ChessInst (σ : Type) where
  cur : σ
  stack : List σ
  deriving DecidableEq, Repr

/-- new Chess(fen): the position is restored, the move history is not. -/
def instFromFen {σ : Type} (p : σ) : ChessInst σ := ⟨p, []⟩

/-- inst.fen(): the serialized current position (positions are opaque, the
serialization is the position value itself). -/
def instFen {σ : Type} (g : ChessInst σ) : σ := g.cur

/-- inst.move(s): on success the position advances and the prior position is
pushed on the history stack; on failure chess.js throws (modelled as none). -/
def instMove {σ : Type} (E : Engine σ) (g : ChessInst σ) (s : String) :
    Option (ChessInst σ × LegalMove) :=
  (E.applyStr g.cur s).map (fun pm => (⟨pm.1, g.stack ++ [g.cur]⟩, pm.2))

/-- inst.undo(): pops the last move when the instance has recorded history,
and is a no-op otherwise (chess.js undo returns null and leaves the board
unchanged when the history is empty). -/
def instUndo {σ : Type} (g : ChessInst σ) : ChessInst σ :=
  match g.stack.getLast? with
  | none => g
  | some p => ⟨p, g.stack.dropLast⟩

/-! ### Game session state (ChessGame.tsx / useChessGame.ts) -/

/-- The React state of the ChessGame component: the chess.js instance, the
move history of standard notations, the active color (true for white), the
running flag, the thinking flag, and the four thought buffers. -/
structure GameState (σ : Type) where
  game : ChessInst σ
  gameHistory : List String
  currentPlayer : Bool
  isGameRunning : Bool
  isAiThinking : Bool
  whiteThoughts : String
  blackThoughts : String
  whiteCurrentThought : String
  blackCurrentThought : String
  deriving DecidableEq, Repr

/-- The initial component state: new Chess(), empty history, white to play,
not running, not thinking, empty thought buffers. -/
def initState {σ : Type} (E : Engine σ) : GameState σ :=
  ⟨⟨E.init, []⟩, [], true, false, false, "", "", "", ""⟩

/-- resetGame of ChessGame.tsx: fresh starting instance, cleared history and
thought buffers, white to play, thinking and running cleared.  The component
state has no generation counter. -/
def resetGame {σ : Type} (E : Engine σ) (_ : GameState σ) : GameState σ :=
  ⟨⟨E.init, []⟩, [], true, false, false, "", "", "", ""⟩

/-- toggleGame flips the running flag (the AI-move scheduling it triggers is
an asynchronous effect, not a state change of this transition). -/
def toggleRun {σ : Type} (st : GameState σ) : GameState σ :=
  { st with isGameRunning := !st.isGameRunning }

/-- makeMove of useMoveHandler.ts (identical in ChessGame.tsx): when the game
is running, a copy of the current position is made through FEN, the move
string is given to chess.js, and on success position, history and active
color are all replaced in one transition; on failure (chess.js throws or
returns null) the state is left untouched. -/
def makeMove {σ : Type} (E : Engine σ) (st : GameState σ) (mv : String) :
    GameState σ :=
  if st.isGameRunning then
    match instMove E (instFromFen (instFen st.game)) mv with
    | some (g', m) =>
        { st with game := g', gameHistory := st.gameHistory ++ [m.san],
                  currentPlayer := E.turnW g'.cur }
    | none => st
  else st

/-- undoMove of useChessGame.ts and ChessGame.tsx: only while running; a copy
of the game is made with new Chess(game.fen()), undo() is called once, and a
second time when more than one history entry exists; the history loses its
last two entries (slice(0, -2)) and the active color is recomputed from the
side to move of the copied instance. -/
def undoMove {σ : Type} (E : Engine σ) (st : GameState σ) : GameState σ :=
  if st.isGameRunning then
    let c1 := instUndo (instFromFen (instFen st.game))
    let c2 := if 1 < st.gameHistory.length then instUndo c1 else c1
    { st with game := c2,
              gameHistory := st.gameHistory.take (st.gameHistory.length - 2),
              currentPlayer := E.turnW c2.cur }
  else st

/-! ### AI move delivery (ChessGame.tsx makeAiMove, lines 139 to 228) -/

/-- The five-way matching predicate of ChessGame.tsx makeAiMove (lines 171 to
177): exact standard notation, exact long notation, origin plus destination,
equality after stripping the first check or mate suffix, case-folded
equality. -/
def cgMatch (aiMove : String) (m : LegalMove) : Bool :=
  m.san == aiMove || m.lan == aiMove || (m.fromSq ++ m.toSq) == aiMove ||
  stripPH m.san == stripPH aiMove || lowerStr m.san == lowerStr aiMove

/-- The resolution of makeAiMove in ChessGame.tsx: the raw move is tried
directly against chess.js; if that fails the first legal move matched by
cgMatch is applied through its standard notation. -/
def cgResolveApply {σ : Type} (E : Engine σ) (p : σ) (aiMove : String) :
    Option (σ × LegalMove) :=
  match E.applyStr p aiMove with
  | some res => some res
  | none =>
      match (E.moves p).find? (cgMatch aiMove) with
      | some m => E.applyStr p m.san
      | none => none

/-- The error annotation appended to the active thought buffer when a
suggested move cannot be executed. -/
def errNote (aiMove : String) : String :=
  "\n\n[Error: Could not execute move " ++ aiMove ++ "]"

/-- Delivery of the terminal result of an AI request in ChessGame.tsx
makeAiMove (the continuation after the awaited getMove call, lines 150 to
227).  captured is the Chess instance the request was started from (held in
the closure); st is the component state at delivery time.  On successful
resolution the position is replaced by a fresh instance of the new FEN, the
history is appended to and the active color recomputed; no generation or
staleness check of any kind is performed before mutating the state.  On
failure only the thought buffer of the moving color is annotated.  In both branches the
thinking flag is cleared. -/
def deliverCompletion {σ : Type} (E : Engine σ) (st : GameState σ)
    (captured : ChessInst σ) (aiMove : String) : GameState σ :=
  match cgResolveApply E captured.cur aiMove with
  | some (p', m) =>
      { st with game := ⟨p', []⟩,
                gameHistory := st.gameHistory ++ [m.san],
                currentPlayer := E.turnW p',
                isAiThinking := false }
  | none =>
      if E.turnW captured.cur then
        { st with whiteCurrentThought := st.whiteCurrentThought ++ errNote aiMove,
                  isAiThinking := false }
      else
        { st with blackCurrentThought := st.blackCurrentThought ++ errNote aiMove,
                  isAiThinking := false }

/-- Entry guard of the AIMoveHandler makeAiMove: a request towards the
provider is only issued when the game is running, the position is not game
over, and an agent could be created from the configured credentials. -/
def aiTurnRequest {σ : Type} (E : Engine σ) (st : GameState σ)
    (hasAgent : Bool) : Bool :=
  st.isGameRunning && !E.gameOver st.game.cur && hasAgent

/-! ### Full AI move resolution of AIMoveHandler.tsx (second component,
lines 299 to 551) -/

/-- aiMove.includes(x): whether the token denotes a capture. -/
def hasX (s : String) : Bool := strContains s "x"

/-- The similar-move block (lines 318 to 356): runs only when the raw token
is not literally among the available standard notations; filters the
notations whose first letter matches the upper-cased first character of the
token (or pawn squares when that character is P), prefers a similar move of
the same capture kind, and applies it directly. -/
def similarBlock {σ : Type} (E : Engine σ) (p : σ) (avail : List String)
    (aiMove : String) : Option (σ × LegalMove) :=
  if avail.contains aiMove then none
  else
    let pieceType := charAt0Upper aiMove
    let similar := avail.filter
      (fun mv => strStarts pieceType mv ||
        (pieceType == "P" && pawnSqL mv.toList))
    match similar with
    | [] => none
    | s0 :: rest =>
        let best := ((s0 :: rest).find? (fun mv => hasX aiMove == hasX mv)).getD s0
        E.applyStr p best

/-- The castling fallback (lines 458 to 478): when the token is a castling
notation, the first castling move of the position is applied. -/
def castleFb {σ : Type} (E : Engine σ) (p : σ) (possible : List LegalMove)
    (aiMove : String) : Option (σ × LegalMove) :=
  if aiMove == "O-O" || aiMove == "O-O-O" then
    match possible.filter (fun m => m.san == "O-O" || m.san == "O-O-O") with
    | [] => none
    | m :: _ => E.applyStr p m.san
  else none

/-- The bishop fallback (lines 480 to 498): when the lower-cased token starts
with bxf7, the first bishop capture onto f7 is applied. -/
def bishopFb {σ : Type} (E : Engine σ) (p : σ) (possible : List LegalMove)
    (aiMove : String) : Option (σ × LegalMove) :=
  if strStarts "bxf7" (lowerStr aiMove) then
    match possible.filter
        (fun m =>
          strContains (lowerStr m.san) "xf7" && strStarts "b" (lowerStr m.san)) with
    | [] => none
    | m :: _ => E.applyStr p m.san
  else none

/-- The preference fallback (lines 501 to 547): guarded by a non-empty
available list, the selected preference move is applied. -/
def prefApply {σ : Type} (E : Engine σ) (p : σ) (avail : List String)
    (r : Nat) : Option (σ × LegalMove) :=
  if avail.isEmpty then none
  else
    match selectFallbackMove avail r with
    | some mv => E.applyStr p mv
    | none => none

/-- The complete resolution flow of the second AIMoveHandler makeAiMove for a
non-null AI token, in source order: the similar-move block, the direct
chess.js attempt, the matchingMove tier scan (applied through its standard
notation, with the preference fallback on application failure), the castling
and bishop fallbacks, and finally the preference fallback.  r models the
uniform random draw of the dead random branch. -/
def amResolve {σ : Type} (E : Engine σ) (p : σ) (aiMove : String) (r : Nat) :
    Option (σ × LegalMove) :=
  let avail := (E.moves p).map LegalMove.san
  match similarBlock E p avail aiMove with
  | some res => some res
  | none =>
      match E.applyStr p aiMove with
      | some res => some res
      | none =>
          match matchingMove aiMove (E.moves p) with
          | some m =>
              match E.applyStr p m.san with
              | some res => some res
              | none => prefApply E p avail r
          | none =>
              match castleFb E p (E.moves p) aiMove with
              | some res => some res
              | none =>
                  match bishopFb E p (E.moves p) aiMove with
                  | some res => some res
                  | none => prefApply E p avail r

/-! ### Session step relations -/

/-- The full transition relation of the session.  A configuration pairs the
component state with every chess.js instance that has been the current game
at some point of the trace: an in-flight AI request holds in its closure the
instance that was current when it was started, so exactly these instances can
arrive as the captured instance of a completion — including a stale one
surviving a reset, since the source performs no staleness check.  Every step
records the new current game in the capture list.  The transitions are a
human move submission, delivery of an AI completion captured from any
previously current game, reset, toggling the running flag, and undo. -/
inductive StepT {σ : Type} (E : Engine σ) :
    GameState σ × List (ChessInst σ) → GameState σ × List (ChessInst σ) → Prop
  | human (st : GameState σ) (caps : List (ChessInst σ)) (mv : String) :
      StepT E (st, caps) (makeMove E st mv, (makeMove E st mv).game :: caps)
  | ai (st : GameState σ) (caps : List (ChessInst σ)) (cap : ChessInst σ)
      (mv : String) (hc : cap ∈ caps) :
      StepT E (st, caps)
        (deliverCompletion E st cap mv,
          (deliverCompletion E st cap mv).game :: caps)
  | reset (st : GameState σ) (caps : List (ChessInst σ)) :
      StepT E (st, caps) (resetGame E st, (resetGame E st).game :: caps)
  | toggle (st : GameState σ) (caps : List (ChessInst σ)) :
      StepT E (st, caps) (toggleRun st, (toggleRun st).game :: caps)
  | undo (st : GameState σ) (caps : List (ChessInst σ)) :
      StepT E (st, caps) (undoMove E st, (undoMove E st).game :: caps)

/-- Trace configurations reachable from the initial component state (whose
own instance is the only capturable one at the start) under the full
relation StepT. -/
def ReachT {σ : Type} (E : Engine σ)
    (c : GameState σ × List (ChessInst σ)) : Prop :=
  Relation.ReflTransGen (StepT E) (initState E, [(initState E).game]) c

/-- The restricted transition relation of the amended parity claim: a human
move submission, delivery of an AI completion captured from the current
position (fresh, not stale), reset, or toggling the running flag.  Undo and
stale deliveries are deliberately absent: the C3 counterexample shows each of
them drives the full relation StepT into a parity-violating state. -/
inductive StepFresh {σ : Type} (E : Engine σ) : GameState σ → GameState σ → Prop
  | human (st : GameState σ) (mv : String) : StepFresh E st (makeMove E st mv)
  | ai (st : GameState σ) (mv : String) :
      StepFresh E st (deliverCompletion E st st.game mv)
  | reset (st : GameState σ) : StepFresh E st (resetGame E st)
  | toggle (st : GameState σ) : StepFresh E st (toggleRun st)

/-- States reachable from the initial component state with no undo and only
fresh deliveries. -/
def ReachFresh {σ : Type} (E : Engine σ) (st : GameState σ) : Prop :=
  Relation.ReflTransGen (StepFresh E) (initState E) st

/-! ### A small concrete Rules Oracle used for witnesses

A three-position engine: position 0 has the single legal move M (to position
1), position 1 has the single legal move N (to position 2), position 2 is
game over.  White moves on even positions. -/

def toyM0 : LegalMove := ⟨"M", "a1a2", "a1", "a2"⟩
def toyM1 : LegalMove := ⟨"N", "a2a3", "a2", "a3"⟩

def toyMoves : Nat → List LegalMove
  | 0 => [toyM0]
  | 1 => [toyM1]
  | _ => []

def toyE : Engine Nat where
  init := 0
  moves := toyMoves
  applyStr := fun p s =>
    ((toyMoves p).find?
        (fun m => s == m.san || s == m.lan || s == m.fromSq ++ m.toSq)).map
      (fun m => (p + 1, m))
  turnW := fun p => p % 2 == 0
  gameOver := fun p => 2 ≤ p

/-! ### Concrete states and moves used by counterexamples and witnesses -/

/-- A pawn advance to e4 as chess.js enumerates it. -/
def pawnE4 : LegalMove := ⟨"e4", "e2e4", "e2", "e4"⟩

/-- A queen move to e4 (queen on h4). -/
def queenE4 : LegalMove := ⟨"Qe4", "h4e4", "h4", "e4"⟩

/-- The initial component state with the game started. -/
def stRun : GameState Nat := toggleRun (initState toyE)

/-- The session after the single move M has been played from the start. -/
def st1 : GameState Nat := makeMove toyE stRun "M"

/-- The session after undoing the single played move. -/
def stBad : GameState Nat := undoMove toyE st1

/-- A session state whose position has no legal moves (game over). -/
def stOver : GameState Nat := { initState toyE with game := ⟨2, []⟩ }

/-- The session obtained by delivering, after a reset, the stale completion
of a request that captured the post-move position: the stale move N is
applied onto the cleared history. -/
def stStale : GameState Nat :=
  deliverCompletion toyE (resetGame toyE st1) st1.game "N"

/-- The capture list accumulated by the undo counterexample trace. -/
def capsBad : List (ChessInst Nat) :=
  [stBad.game, st1.game, stRun.game, (initState toyE).game]

/-- The capture list accumulated by the stale-delivery counterexample
trace. -/
def capsStale : List (ChessInst Nat) :=
  [stStale.game, (resetGame toyE st1).game, st1.game, stRun.game,
    (initState toyE).game]

/-- The parity invariant tying active color to history length: the stored
active color agrees with the side to move of the position, and the history
length is even exactly when white is active. -/
def parityInv {σ : Type} (E : Engine σ) (st : GameState σ) : Prop :=
  st.currentPlayer = E.turnW st.game.cur ∧
    (st.gameHistory.length % 2 = 0 ↔ st.currentPlayer = true)

/-! ### Helper lemmas -/

lemma find?_first {α : Type} (p : α → Bool) :
    ∀ (l : List α) (a : α), l.find? p = some a →
      a ∈ l ∧ p a = true ∧
        ∃ l1 l2, l = l1 ++ a :: l2 ∧ ∀ b ∈ l1, p b = false := by
  intro l
  induction l with
  | nil => intro a h; simp [List.find?] at h
  | cons x xs ih =>
    intro a h
    cases hpx : p x with
    | true =>
      rw [List.find?_cons_of_pos _ hpx] at h
      injection h with h
      subst h
      exact ⟨List.mem_cons_self _ _, hpx, [], xs, rfl, by simp⟩
    | false =>
      rw [List.find?_cons_of_neg _ (by simp [hpx])] at h
      obtain ⟨hm, hp, l1, l2, heq, hall⟩ := ih a h
      refine ⟨List.mem_cons_of_mem _ hm, hp, x :: l1, l2, by simp [heq], ?_⟩
      intro b hb
      rcases List.mem_cons.mp hb with rfl | hb
      · exact hpx
      · exact hall b hb

lemma firstFind_mem (prs : List (String → Bool)) (l : List String)
    (mv : String) (h : firstFind prs l = some mv) : mv ∈ l := by
  induction prs with
  | nil => simp [firstFind] at h
  | cons pr prs ih =>
    simp only [firstFind] at h
    cases hf : l.find? pr with
    | some a => rw [hf] at h; injection h with h; subst h; exact List.mem_of_find?_eq_some hf
    | none => rw [hf] at h; exact ih h

lemma firstFind_movePrefs_isSome (a : String) (t : List String) :
    (firstFind movePrefs (a :: t)).isSome := by
  show (firstFind [pref1, pref2, pref3, pref4, pref5] (a :: t)).isSome
  simp only [firstFind]
  cases h1 : (a :: t).find? pref1 with
  | some mv => rfl
  | none =>
    cases h2 : (a :: t).find? pref2 with
    | some mv => rfl
    | none =>
      cases h3 : (a :: t).find? pref3 with
      | some mv => rfl
      | none =>
        cases h4 : (a :: t).find? pref4 with
        | some mv => rfl
        | none => simp [List.find?, pref5]

lemma cgResolve_flips {σ : Type} (E : Engine σ) (hWF : EngineWF E) (p : σ)
    (mv : String) (p' : σ) (m : LegalMove)
    (h : cgResolveApply E p mv = some (p', m)) : E.turnW p' = !E.turnW p := by
  unfold cgResolveApply at h
  cases h1 : E.applyStr p mv with
  | some res =>
    rw [h1] at h
    injection h with h2
    subst h2
    exact hWF.flips p mv p' m h1
  | none =>
    rw [h1] at h
    cases h2 : (E.moves p).find? (cgMatch mv) with
    | some mm => rw [h2] at h; exact hWF.flips p mm.san p' m h
    | none => rw [h2] at h; exact absurd h (by simp)

lemma getMoveExtract_valid (dec : Option String) (cands : List String)
    (mv : String) (h : getMoveExtract dec cands = some mv) :
    isValidMoveFormat mv = true := by
  have hscan : ∀ c, scanCands c = some mv → isValidMoveFormat mv = true := by
    intro c hc
    exact List.find?_some hc
  cases dec with
  | none => exact hscan cands h
  | some t =>
    simp only [getMoveExtract] at h
    cases hv : mentionsOver t with
    | true => rw [hv] at h; simp at h
    | false =>
      rw [hv] at h
      simp only [Bool.false_eq_true, if_false] at h
      cases hr : firstRun t with
      | some tok =>
        simp only [hr] at h
        cases hval : isValidMoveFormat tok with
        | true =>
          simp [hval] at h
          subst h
          exact hval
        | false =>
          simp [hval] at h
          exact hscan cands h
      | none =>
        simp only [hr] at h
        exact hscan cands h

lemma toyWF : EngineWF toyE := by
  constructor
  · intro p m hm
    match p with
    | 0 =>
      simp only [toyE, toyMoves, List.mem_singleton] at hm
      subst hm
      exact ⟨1, by decide⟩
    | 1 =>
      simp only [toyE, toyMoves, List.mem_singleton] at hm
      subst hm
      exact ⟨2, by decide⟩
    | (n + 2) => simp [toyE, toyMoves] at hm
  · intro p s h
    show (((toyMoves p).find? _).map _) = none
    rw [List.find?_eq_none.mpr, Option.map_none']
    intro m hm
    obtain ⟨h1, h2, h3⟩ := h m hm
    simp only [Bool.or_eq_true, beq_iff_eq]
    intro hc
    tauto
  · intro p h
    match p with
    | 0 => simp [toyE, toyMoves] at h
    | 1 => simp [toyE, toyMoves] at h
    | (n + 2) =>
      show decide (2 ≤ n + 2) = true
      simp
  · intro p s p' m h
    have hp : p' = p + 1 := by
      simp only [toyE, Option.map_eq_some'] at h
      obtain ⟨a, _, ha⟩ := h
      exact (Prod.mk.injEq _ _ _ _ ▸ ha).1.symm
    subst hp
    show ((p + 1) % 2 == 0) = !(p % 2 == 0)
    rcases Nat.mod_two_eq_zero_or_one p with h2 | h2
    · have h3 : (p + 1) % 2 = 1 := by omega
      simp [h2, h3]
    · have h3 : (p + 1) % 2 = 0 := by omega
      simp [h2, h3]
  · decide

lemma parityInv_append {σ : Type} (E : Engine σ) (st st' : GameState σ) (s : String)
    (hcur : E.turnW st'.game.cur = !E.turnW st.game.cur)
    (hhist : st'.gameHistory = st.gameHistory ++ [s])
    (hpl : st'.currentPlayer = E.turnW st'.game.cur)
    (hInv : parityInv E st) : parityInv E st' := by
  obtain ⟨h1, h2⟩ := hInv
  refine ⟨hpl, ?_⟩
  rw [hhist, hpl, hcur, ← h1, List.length_append]
  cases hb : st.currentPlayer with
  | true =>
    have hlen : st.gameHistory.length % 2 = 0 := h2.mpr (by rw [hb])
    simp only [Bool.not_true, List.length_singleton]
    constructor
    · intro hcon
      exact absurd hcon (by omega)
    · intro hcon
      exact absurd hcon (by simp)
  | false =>
    have hlen : st.gameHistory.length % 2 = 1 := by
      rcases Nat.mod_two_eq_zero_or_one st.gameHistory.length with h | h
      · rw [hb] at h2
        exact absurd (h2.mp h) (by simp)
      · exact h
    simp only [Bool.not_false, List.length_singleton]
    constructor
    · intro _
      trivial
    · intro _
      omega

lemma parityInv_step {σ : Type} (E : Engine σ) (hWF : EngineWF E)
    (st st' : GameState σ) (hstep : StepFresh E st st') (hInv : parityInv E st) :
    parityInv E st' := by
  cases hstep with
  | human mv =>
    cases hr : st.isGameRunning with
    | false => simpa [parityInv, makeMove, hr] using hInv
    | true =>
      cases happ : E.applyStr st.game.cur mv with
      | none =>
        simpa [parityInv, makeMove, hr, instMove, instFromFen, instFen, happ]
          using hInv
      | some pm =>
        refine parityInv_append E st _ pm.2.san ?_ ?_ ?_ hInv
        · simp only [makeMove, hr, instMove, instFromFen, instFen, happ,
            if_true, Option.map_some']
          exact hWF.flips _ _ _ _ (by rw [happ])
        · simp [makeMove, hr, instMove, instFromFen, instFen, happ]
        · simp [makeMove, hr, instMove, instFromFen, instFen, happ]
  | ai mv =>
    cases hres : cgResolveApply E st.game.cur mv with
    | none =>
      cases hw : E.turnW st.game.cur <;>
        simpa [parityInv, deliverCompletion, hres, hw] using hInv
    | some pm =>
      refine parityInv_append E st _ pm.2.san ?_ ?_ ?_ hInv
      · simp only [deliverCompletion, hres]
        exact cgResolve_flips E hWF _ _ _ _ (by rw [hres])
      · simp [deliverCompletion, hres]
      · simp [deliverCompletion, hres]
  | reset =>
    refine ⟨?_, by simp [resetGame]⟩
    simpa [resetGame] using hWF.init_white.symm
  | toggle =>
    simpa [parityInv, toggleRun] using hInv

/-- A position copy obtained through FEN never has recorded history, so undo
on it is a no-op: undoMove never changes the current position. -/
lemma undoMove_cur_eq {σ : Type} (E : Engine σ) (st : GameState σ) :
    (undoMove E st).game.cur = st.game.cur := by
  cases hr : st.isGameRunning with
  | false => simp [undoMove, hr]
  | true =>
    by_cases h2 : 1 < st.gameHistory.length <;>
      simp [undoMove, hr, h2, instUndo, instFromFen, instFen]

/-! ### Claim theorems -/

/-- Claim C1, counterexample: the session has no generation counter, and a
stale AI completion delivered after Reset does change session state.  With
the toy oracle: start the game, let an AI request capture the pre-reset
instance, reset, then deliver the stale completion — the resulting state
differs from the reset state (the stale move is applied). -/
theorem c1_cex :
    deliverCompletion toyE (resetGame toyE stRun) stRun.game "M" ≠
      resetGame toyE stRun := by decide

/-- Claim C1, amended: Reset does not discard a stale in-flight completion.
Whenever the stale token resolves against the captured pre-reset position,
delivering the completion after Reset appends the resolved move to the
cleared history, replaces the position with the one reached from the captured
instance, and therefore changes the post-reset session state. -/
theorem c1_stale_applied {σ : Type} (E : Engine σ) (st : GameState σ)
    (cap : ChessInst σ) (mv : String) (p' : σ) (m : LegalMove)
    (h : cgResolveApply E cap.cur mv = some (p', m)) :
    (deliverCompletion E (resetGame E st) cap mv).gameHistory = [m.san] ∧
      (deliverCompletion E (resetGame E st) cap mv).game.cur = p' ∧
      deliverCompletion E (resetGame E st) cap mv ≠ resetGame E st := by
  have h1 : (deliverCompletion E (resetGame E st) cap mv).gameHistory = [m.san] := by
    simp [deliverCompletion, h, resetGame]
  refine ⟨h1, ?_, ?_⟩
  · simp [deliverCompletion, h]
  · intro heq
    rw [heq] at h1
    simp [resetGame] at h1

/-- Claim C1, witness for the amended theorem at the toy oracle. -/
theorem c1_wit :
    (deliverCompletion toyE (resetGame toyE stRun) stRun.game "M").gameHistory =
        [toyM0.san] ∧
      (deliverCompletion toyE (resetGame toyE stRun) stRun.game "M").game.cur = 1 ∧
      deliverCompletion toyE (resetGame toyE stRun) stRun.game "M" ≠
        resetGame toyE stRun :=
  c1_stale_applied toyE stRun stRun.game "M" 1 toyM0 (by decide)

/-- Claim C2: evaluation of undoMove at the failing input.  After exactly one
move (position 0 to 1, history with one record), undoMove leaves the position
at 1 instead of restoring the prior position 0, because the copy made through
FEN has no move history and chess.js undo is a no-op on it; only the history
list is truncated. -/
theorem c2_undo_noop :
    st1.gameHistory = ["M"] ∧ st1.game.cur = 1 ∧ stRun.game.cur = 0 ∧
      (undoMove toyE st1).game.cur = 1 ∧
      (undoMove toyE st1).gameHistory = [] := by decide

/-- Claim C3, counterexample: two reachable configurations of the full
transition system refute the invariant.  First, toggle, one applied move,
then undo reaches a state with even history length and black active (undo
truncates the history without moving the position back).  Second, with no
undo at all: toggle, one applied move, reset, then delivery of the stale
completion captured at the post-move position reaches a state with odd
history length and white active (the stale move is applied onto the cleared
history). -/
theorem c3_cex :
    (ReachT toyE (stBad, capsBad) ∧ stBad.gameHistory.length % 2 = 0 ∧
        stBad.currentPlayer = false) ∧
    (ReachT toyE (stStale, capsStale) ∧ stStale.gameHistory.length % 2 = 1 ∧
        stStale.currentPlayer = true) := by
  constructor
  · refine ⟨?_, by decide, by decide⟩
    exact Relation.ReflTransGen.head (StepT.toggle _ _)
      (Relation.ReflTransGen.head (StepT.human _ _ "M")
        (Relation.ReflTransGen.single (StepT.undo _ _)))
  · refine ⟨?_, by decide, by decide⟩
    exact Relation.ReflTransGen.head (StepT.toggle _ _)
      (Relation.ReflTransGen.head (StepT.human _ _ "M")
        (Relation.ReflTransGen.head (StepT.reset _ _)
          (Relation.ReflTransGen.single
            (StepT.ai _ _ st1.game "N" (by decide)))))

/-- Claim C3, amended: over every well-formed Rules Oracle, every session
state reachable by applied moves, resets, start/stop toggles and AI
completions delivered against the current position — that is, excluding undo
and stale deliveries, the two transitions the counterexample shows to
violate parity — has an even history length exactly when white is the active
color. -/
theorem c3_parity {σ : Type} (E : Engine σ) (hWF : EngineWF E)
    (st : GameState σ) (h : ReachFresh E st) :
    st.gameHistory.length % 2 = 0 ↔ st.currentPlayer = true := by
  have h' : Relation.ReflTransGen (StepFresh E) (initState E) st := h
  clear h
  have hInv : parityInv E st := by
    induction h' with
    | refl => exact ⟨hWF.init_white.symm, by simp [initState]⟩
    | tail _ hs ih => exact parityInv_step E hWF _ _ hs ih
  exact hInv.2

/-- Claim C3, witness: the parity theorem applied to the reachable state
after one applied move. -/
theorem c3_wit : st1.gameHistory.length % 2 = 0 ↔ st1.currentPlayer = true :=
  c3_parity toyE toyWF st1
    (Relation.ReflTransGen.head (StepFresh.toggle _)
      (Relation.ReflTransGen.single (StepFresh.human _ "M")))

/-- Claim C4, counterexample: move resolution is move-major, not tier-major.
With token Qe4 and the pawn move e4 enumerated before the queen move Qe4,
matchingMove returns the pawn move (which matches only by containment of e4
in qe4) even though the later queen move is an exact Tier A standard-notation
match; a tier-major scan (exact standard notation first) would return the
queen move. -/
theorem c4_cex :
    matchingMove "Qe4" [pawnE4, queenE4] = some pawnE4 ∧
      queenE4.san = "Qe4" ∧ pawnE4.san ≠ "Qe4" ∧
      [pawnE4, queenE4].find? (fun m => m.san == "Qe4") = some queenE4 := by decide

/-- Claim C4, amended: matchingMove scans the legal moves in enumeration
order trying all matching strategies on each move, and returns the first move
matched by any strategy: every move earlier in the list fails all
strategies.  Tier priority applies only within the check of a single move, not
across the list. -/
theorem c4_move_major (ai : String) (l : List LegalMove) (m : LegalMove)
    (h : matchingMove ai l = some m) :
    m ∈ l ∧ bigMatch ai m = true ∧
      ∃ l1 l2, l = l1 ++ m :: l2 ∧ ∀ m' ∈ l1, bigMatch ai m' = false :=
  find?_first (bigMatch ai) l m h

/-- Claim C4, witness for the amended theorem at the counterexample list. -/
theorem c4_wit :
    pawnE4 ∈ [pawnE4, queenE4] ∧ bigMatch "Qe4" pawnE4 = true ∧
      ∃ l1 l2, [pawnE4, queenE4] = l1 ++ pawnE4 :: l2 ∧
        ∀ m' ∈ l1, bigMatch "Qe4" m' = false :=
  c4_move_major "Qe4" [pawnE4, queenE4] pawnE4 (by decide)

/-- Claim C5, counterexample: with two king moves no preference below five
matches, so both survive to tier five; the uniform draw indexing the second
survivor should return Ke2, but the selection deterministically returns the
first survivor Kd2 — the random branch is dead code for non-empty lists. -/
theorem c5_cex :
    selectFallbackMove ["Kd2", "Ke2"] 1 = some "Kd2" ∧
      firstFind [pref1, pref2, pref3, pref4] ["Kd2", "Ke2"] = none ∧
      ["Kd2", "Ke2"].get? (1 % 2) = some "Ke2" := by decide

/-- Claim C5, amended: on a non-empty list the fallback selection equals the
preference loop (first move in enumeration order satisfying the first
predicate with any match) for every random draw, and always selects some
move; the tier-five random pick is never reached. -/
theorem c5_first_match (avail : List String) (r : Nat) (h : avail ≠ []) :
    selectFallbackMove avail r = firstFind movePrefs avail ∧
      (selectFallbackMove avail r).isSome := by
  obtain ⟨a, t, rfl⟩ := List.exists_cons_of_ne_nil h
  have hs := firstFind_movePrefs_isSome a t
  obtain ⟨mv, hmv⟩ := Option.isSome_iff_exists.mp hs
  constructor
  · simp [selectFallbackMove, hmv]
  · simp [selectFallbackMove, hmv]

/-- Claim C5, witness for the amended theorem at the two-king-move list. -/
theorem c5_wit :
    selectFallbackMove ["Kd2", "Ke2"] 0 = firstFind movePrefs ["Kd2", "Ke2"] ∧
      (selectFallbackMove ["Kd2", "Ke2"] 0).isSome :=
  c5_first_match ["Kd2", "Ke2"] 0 (by decide)

/-- Claim C6: on every non-empty available-move list and every random draw,
fallback selection returns some member of the list — it never synthesizes a
move outside the list, and termination is guaranteed because the fifth
preference matches any move. -/
theorem c6_member (avail : List String) (r : Nat) (h : avail ≠ []) :
    ∃ mv, selectFallbackMove avail r = some mv ∧ mv ∈ avail := by
  obtain ⟨a, t, rfl⟩ := List.exists_cons_of_ne_nil h
  have hs := firstFind_movePrefs_isSome a t
  obtain ⟨mv, hmv⟩ := Option.isSome_iff_exists.mp hs
  exact ⟨mv, by simp [selectFallbackMove, hmv], firstFind_mem movePrefs _ mv hmv⟩

/-- Claim C6, witness at a one-element list with an arbitrary draw. -/
theorem c6_wit : ∃ mv, selectFallbackMove ["e4"] 7 = some mv ∧ mv ∈ ["e4"] :=
  c6_member ["e4"] 7 (by decide)

/-- Claim C7: a human-submitted move naming no legal move of the current
position (for a well-formed oracle, chess.js rejects it) leaves the session
state entirely unchanged; and when the oracle accepts the move the position,
history and active color are all replaced in the same single transition. -/
theorem c7_reject_atomic {σ : Type} (E : Engine σ) (hWF : EngineWF E)
    (st : GameState σ) (mv : String) :
    ((∀ m ∈ E.moves st.game.cur,
        mv ≠ m.san ∧ mv ≠ m.lan ∧ mv ≠ m.fromSq ++ m.toSq) →
      makeMove E st mv = st) ∧
    (∀ p' m, st.isGameRunning = true →
      E.applyStr st.game.cur mv = some (p', m) →
      makeMove E st mv =
        { st with game := ⟨p', [st.game.cur]⟩,
                  gameHistory := st.gameHistory ++ [m.san],
                  currentPlayer := E.turnW p' }) := by
  constructor
  · intro h
    cases hr : st.isGameRunning with
    | false => simp [makeMove, hr]
    | true =>
      have hrej := hWF.rejects st.game.cur mv h
      simp [makeMove, hr, instMove, instFromFen, instFen, hrej]
  · intro p' m hr happ
    simp [makeMove, hr, instMove, instFromFen, instFen, happ]

/-- Claim C7, witness: a foreign move string is rejected with no state
change on the toy oracle. -/
theorem c7_wit : makeMove toyE stRun "zz" = stRun :=
  (c7_reject_atomic toyE toyWF stRun "zz").1 (by decide)

/-- Claim C8: resolving the exact standard notation of a legal move through
the full AI resolution flow returns that very move (the raw token is in the
available list, so the similar-move block is skipped, and the direct chess.js
attempt applies it). -/
theorem c8_exact_san {σ : Type} (E : Engine σ) (hWF : EngineWF E) (p : σ)
    (m : LegalMove) (r : Nat) (hm : m ∈ E.moves p) :
    ∃ p', amResolve E p m.san r = some (p', m) := by
  obtain ⟨p', happ⟩ := hWF.san_applies p m hm
  have hmem : m.san ∈ (E.moves p).map LegalMove.san := List.mem_map_of_mem _ hm
  have hcont : ((E.moves p).map LegalMove.san).contains m.san = true := by
    simpa using hmem
  have h1 : similarBlock E p ((E.moves p).map LegalMove.san) m.san = none := by
    unfold similarBlock
    rw [hcont]
    simp
  refine ⟨p', ?_⟩
  simp only [amResolve]
  rw [h1, happ]

/-- Claim C8, witness at the toy oracle and its initial position. -/
theorem c8_wit : ∃ p', amResolve toyE 0 "M" 0 = some (p', toyM0) :=
  c8_exact_san toyE toyWF 0 toyM0 0 (by decide)

/-- Claim C9: with an empty legal-move list the position is game over, the
AI turn handler issues no request, and getMove returns null with zero
provider stream calls. -/
theorem c9_no_network {σ : Type} (E : Engine σ) (hWF : EngineWF E)
    (st : GameState σ) (hasAgent : Bool) (dec : Option String)
    (cands : List String) (h : E.moves st.game.cur = []) :
    E.gameOver st.game.cur = true ∧ aiTurnRequest E st hasAgent = false ∧
      getMoveRun ((E.moves st.game.cur).map LegalMove.san) dec cands =
        (none, 0) := by
  have hover := hWF.over_empty _ h
  refine ⟨hover, ?_, ?_⟩
  · simp [aiTurnRequest, hover]
  · simp [getMoveRun, h]

/-- Claim C9, witness at the toy oracle position with no legal moves. -/
theorem c9_wit :
    toyE.gameOver stOver.game.cur = true ∧
      aiTurnRequest toyE stOver true = false ∧
      getMoveRun ((toyE.moves stOver.game.cur).map LegalMove.san) none [] =
        (none, 0) :=
  c9_no_network toyE toyWF stOver true none [] rfl

/-- Claim C10: whenever getMove returns a non-null move string, that string
passes isValidMoveFormat — every return of a move in the extraction pipeline
is guarded by the validator. -/
theorem c10_validated (sans : List String) (dec : Option String)
    (cands : List String) (mv : String) (n : Nat)
    (h : getMoveRun sans dec cands = (some mv, n)) :
    isValidMoveFormat mv = true := by
  unfold getMoveRun at h
  cases he : sans.isEmpty with
  | true => rw [he] at h; simp at h
  | false =>
    rw [he] at h
    simp only [Bool.false_eq_true, if_false, Prod.mk.injEq] at h
    exact getMoveExtract_valid dec cands mv h.1

/-- Claim C10, witness: a decision text e4 is extracted and validated. -/
theorem c10_wit : isValidMoveFormat "e4" = true :=
  c10_validated ["e4"] (some "e4") [] "e4" 1 (by decide)

end ChessMind
